import Mathlib

/-!
A shallow embedding of `ffprobe/ffprobe.py`: the stream-block parsing loop,
the container-metadata (stderr) parsing loop, and the derived-field queries of
`FFStream`, together with proofs settling the specification claims about them.

Modelling conventions:
* a raw text line is a `List Char`;
* Python exceptions are modelled by `Except PyErr`;
* Python float arithmetic is modelled exactly over `ℚ` (the values exercised
  by the claims are small, so binary-float rounding never differs from the
  exact value); non-finite float literals (`inf`, `nan`) and underscore digit
  separators, which never occur in ffprobe output, are outside the model;
* the attribute dictionary `self.__dict__` of `FFStream` is an association
  list from key to `PyVal` (string, int, or Python `None`), since the computed
  `framerate` attribute shares the same namespace as the raw fields.
-/

/-- Python `str.isspace` characters (ASCII range, as emitted by ffprobe). -/
def isPySpace (c : Char) : Bool :=
  c = ' ' || c = '\t' || c = '\n' || c = '\r' || c = '\x0b' || c = '\x0c'

/-- Regex `\w` word characters (ASCII range, as emitted by ffprobe). -/
def isWordChar (c : Char) : Bool := c.isAlphanum || c = '_'

/-- Characters of a string literal. -/
def ls (s : String) : List Char := s.data

/-- Python `str.strip()`: drop whitespace from both ends. -/
def pyStrip (s : List Char) : List Char :=
  ((s.dropWhile isPySpace).reverse.dropWhile isPySpace).reverse

/-- Python `str.split(sep)` for a one-character separator: split at every
occurrence, producing one more part than there are separators. -/
def splitCh (c : Char) : List Char → List (List Char)
  | [] => [[]]
  | x :: xs =>
      if x = c then [] :: splitCh c xs
      else
        match splitCh c xs with
        | [] => [[x]]
        | r :: rs => (x :: r) :: rs

/-- Does `s` start with `pat`? -/
def beginsWith : List Char → List Char → Bool
  | [], _ => true
  | _ :: _, [] => false
  | p :: ps, c :: cs => p = c && beginsWith ps cs

/-- Python `pat in s` on strings: contiguous-substring containment. -/
def hasSub (pat : List Char) : List Char → Bool
  | [] => beginsWith pat []
  | c :: cs => beginsWith pat (c :: cs) || hasSub pat cs

/-- Numeric value of a decimal digit character. -/
def digitVal (c : Char) : Nat := c.toNat - '0'.toNat

/-- Value of a list of decimal digit characters (0 for the empty list). -/
def natOfDigits (ds : List Char) : Nat := ds.foldl (fun a c => a * 10 + digitVal c) 0

/-- A nonempty all-digit string read as a natural number. -/
def readNat (ds : List Char) : Option Nat :=
  if ds ≠ [] && ds.all Char.isDigit then some (natOfDigits ds) else none

/-- Python `int(s)` on a string: optional surrounding whitespace, optional
sign, then decimal digits; anything else raises `ValueError` (`none`). -/
def pyIntOpt (s : List Char) : Option Int :=
  match pyStrip s with
  | [] => none
  | c :: ds =>
      if c = '+' then (readNat ds).map (fun n => (n : Int))
      else if c = '-' then (readNat ds).map (fun n => -(n : Int))
      else (readNat (c :: ds)).map (fun n => (n : Int))

/-- Value of a digit list read as the fractional part after a decimal point. -/
def fracOfDigits (ds : List Char) : ℚ := (natOfDigits ds : ℚ) / (10 : ℚ) ^ ds.length

/-- Exponent digits (with optional sign) of a float literal, as a power of 10. -/
def expDigits : List Char → Option ℚ
  | '+' :: ds => (readNat ds).map (fun n => (10 : ℚ) ^ (n : Int))
  | '-' :: ds => (readNat ds).map (fun n => (10 : ℚ) ^ (-(n : Int)))
  | ds => (readNat ds).map (fun n => (10 : ℚ) ^ (n : Int))

/-- Optional exponent part of a float literal (`e`/`E` followed by digits);
the empty remainder means no exponent. -/
def expPart : List Char → Option ℚ
  | [] => some 1
  | 'e' :: r => expDigits r
  | 'E' :: r => expDigits r
  | _ => none

/-- Unsigned body of a Python float literal: `digits [. digits] [exp]` with at
least one digit in the mantissa. -/
def pyFloatBody (u : List Char) : Option ℚ :=
  let ip := u.takeWhile Char.isDigit
  let r1 := u.dropWhile Char.isDigit
  match r1 with
  | '.' :: r2 =>
      let fp := r2.takeWhile Char.isDigit
      let r3 := r2.dropWhile Char.isDigit
      if ip.isEmpty && fp.isEmpty then none
      else (expPart r3).map (fun e => ((natOfDigits ip : ℚ) + fracOfDigits fp) * e)
  | r2 =>
      if ip.isEmpty then none
      else (expPart r2).map (fun e => (natOfDigits ip : ℚ) * e)

/-- Python `float(s)` on a string (finite decimal literals; `none` models
`ValueError`). -/
def pyFloatOpt (s : List Char) : Option ℚ :=
  match pyStrip s with
  | '+' :: u => pyFloatBody u
  | '-' :: u => (pyFloatBody u).map Neg.neg
  | u => pyFloatBody u

/-- `strptime` directive `%H` (regex `2[0-3]|[0-1]\d|\d`): a two-digit value
up to 23, falling back to one digit. -/
def readHourHMS : List Char → Option (Nat × List Char)
  | a :: b :: r =>
      if a.isDigit && b.isDigit then
        let v := 10 * digitVal a + digitVal b
        if v ≤ 23 then some (v, r) else some (digitVal a, b :: r)
      else if a.isDigit then some (digitVal a, b :: r)
      else none
  | [a] => if a.isDigit then some (digitVal a, []) else none
  | [] => none

/-- `strptime` directive `%M` (regex `[0-5]\d|\d`). -/
def readMinHMS : List Char → Option (Nat × List Char)
  | a :: b :: r =>
      if a.isDigit && b.isDigit then
        let v := 10 * digitVal a + digitVal b
        if v ≤ 59 then some (v, r) else some (digitVal a, b :: r)
      else if a.isDigit then some (digitVal a, b :: r)
      else none
  | [a] => if a.isDigit then some (digitVal a, []) else none
  | [] => none

/-- `strptime` directive `%S` (regex `6[0-1]|[0-5]\d|\d`). -/
def readSecHMS : List Char → Option (Nat × List Char)
  | a :: b :: r =>
      if a.isDigit && b.isDigit then
        let v := 10 * digitVal a + digitVal b
        if v ≤ 61 then some (v, r) else some (digitVal a, b :: r)
      else if a.isDigit then some (digitVal a, b :: r)
      else none
  | [a] => if a.isDigit then some (digitVal a, []) else none
  | [] => none

/-- `strptime` directive `%f` at end of input: one to six digits, right-padded
to microseconds; any unconverted remainder is a `ValueError`. -/
def readFrac (s : List Char) : Option Nat :=
  let ds := s.takeWhile Char.isDigit
  if ds.isEmpty || 6 < ds.length || !(s.dropWhile Char.isDigit).isEmpty then none
  else some (natOfDigits ds * 10 ^ (6 - ds.length))

/-- `datetime.strptime(s, "%H:%M:%S,%f")`: hour, minute, second, microsecond. -/
def strptimeHMSf (s : List Char) : Option (Nat × Nat × Nat × Nat) :=
  match readHourHMS s with
  | none => none
  | some (h, r1) =>
      match r1 with
      | ':' :: r2 =>
          match readMinHMS r2 with
          | none => none
          | some (m, r3) =>
              match r3 with
              | ':' :: r4 =>
                  match readSecHMS r4 with
                  | none => none
                  | some (sec, r5) =>
                      match r5 with
                      | ',' :: r6 => (readFrac r6).map (fun us => (h, m, sec, us))
                      | _ => none
              | _ => none
      | _ => none

/-- Python `round` on an exact value: round half to even. -/
def pyRound (q : ℚ) : Int :=
  if q - (Int.floor q : ℚ) < 1 / 2 then Int.floor q
  else if 1 / 2 < q - (Int.floor q : ℚ) then Int.floor q + 1
  else if Int.floor q % 2 = 0 then Int.floor q else Int.floor q + 1

/-- An exact unnormalised fraction (denominator kept positive by
construction): the representation used to run the `truediv` chain, chosen
over `ℚ` so that concrete runs reduce by `decide`. -/
structure PyFrac where
  num : Int
  den : Int
deriving DecidableEq

/-- The rational value of a `PyFrac`. -/
def PyFrac.val (q : PyFrac) : ℚ := (q.num : ℚ) / (q.den : ℚ)

/-- An integer as a `PyFrac`. -/
def PyFrac.ofInt (v : Int) : PyFrac := ⟨v, 1⟩

/-- Exact division of a `PyFrac` by a nonzero integer. -/
def PyFrac.divInt (q : PyFrac) (v : Int) : PyFrac :=
  if v < 0 then ⟨-q.num, q.den * (-v)⟩ else ⟨q.num, q.den * v⟩

/-- `pyRound` computed on a `PyFrac` with integer arithmetic only:
`Int.ediv` is the floor (the denominator is always positive here), and the
fractional remainder `t / den` is compared with `1 / 2` by comparing `2 * t`
with `den`.  Agrees with `pyRound` on the value whenever the denominator is
positive (`pyRoundF_eq`). -/
def pyRoundF (q : PyFrac) : Int :=
  if 2 * (q.num - q.num.ediv q.den * q.den) < q.den then q.num.ediv q.den
  else if q.den < 2 * (q.num - q.num.ediv q.den * q.den) then q.num.ediv q.den + 1
  else if q.num.ediv q.den % 2 = 0 then q.num.ediv q.den else q.num.ediv q.den + 1

/-- A value stored in `FFStream.__dict__`: raw fields are strings, the computed
`framerate` is an int or Python `None`. -/
inductive PyVal where
  | str : List Char → PyVal
  | int : Int → PyVal
  | pnone : PyVal
deriving DecidableEq

/-- The Python exceptions the embedded code can raise. -/
inductive PyErr where
  | valueError
  | zeroDivisionError
  | typeError
  | attributeError
  | ffprobeError
  | unboundLocalError
deriving DecidableEq

instance {ε α : Type} [DecidableEq ε] [DecidableEq α] : DecidableEq (Except ε α)
  | .error e, .error f =>
      if h : e = f then .isTrue (by rw [h]) else .isFalse (fun hh => by cases hh; exact h rfl)
  | .error _, .ok _ => .isFalse (fun hh => by cases hh)
  | .ok _, .error _ => .isFalse (fun hh => by cases hh)
  | .ok a, .ok b =>
      if h : a = b then .isTrue (by rw [h]) else .isFalse (fun hh => by cases hh; exact h rfl)

/-- `FFStream.__dict__`: attribute name to value. -/
abbrev Dict := List (List Char × PyVal)

/-- `FFProbe.metadata`: string-to-string mapping. -/
abbrev MDict := List (List Char × List Char)

/-- Dictionary assignment `m[k] = v` (last value wins, insertion order kept). -/
def dictSet {α : Type} : List (List Char × α) → List Char → α → List (List Char × α)
  | [], k, v => [(k, v)]
  | (k', v') :: rest, k, v =>
      if k' = k then (k, v) :: rest else (k', v') :: dictSet rest k v

/-- Dictionary lookup `m.get(k)`. -/
def dictGet {α : Type} : List (List Char × α) → List Char → Option α
  | [], _ => none
  | (k', v') :: rest, k => if k' = k then some v' else dictGet rest k

/-- `m.get(k, '')`: lookup with the empty-string default used throughout. -/
def dictGetD (d : Dict) (k : List Char) : PyVal := (dictGet d k).getD (.str [])

/-- A Python `for` loop whose body may raise: thread the state, stop at the
first exception. -/
def runLines {σ : Type} (step : σ → List Char → Except PyErr σ) :
    σ → List (List Char) → Except PyErr σ
  | s, [] => .ok s
  | s, l :: rest =>
      match step s l with
      | .ok s' => runLines step s' rest
      | .error e => .error e

def avgK : List Char := ls "avg_frame_rate"
def frK : List Char := ls "framerate"
def ctK : List Char := ls "codec_type"
def durK : List Char := ls "duration"
def tagDurK : List Char := ls "TAG:DURATION"
def nbFramesK : List Char := ls "nb_frames"
def bitRateK : List Char := ls "bit_rate"
def channelsK : List Char := ls "channels"
def naV : List Char := ls "N/A"
def sOPEN : List Char := ls "[STREAM]"
def sCLOSE : List Char := ls "[/STREAM]"
def sMETA : List Char := ls "Metadata:"
def sSTREAMH : List Char := ls "Stream #"

/-- `functools.reduce(operator.truediv, map(int, parts))` after the first
element: `map` is lazy, so each part is converted just before it is used, and
a zero divisor raises before later parts are even looked at. -/
def reduceDivGo (acc : PyFrac) : List (List Char) → Except PyErr PyFrac
  | [] => .ok acc
  | p :: ps =>
      match pyIntOpt p with
      | none => .error .valueError
      | some v =>
          if v = 0 then .error .zeroDivisionError else reduceDivGo (acc.divInt v) ps

/-- The computed `framerate` value for a raw `avg_frame_rate` string `s`, with
the `except ValueError` / `except ZeroDivisionError` handlers applied:
`round(reduce(truediv, map(int, s.split('/'))))`.  `splitCh` never returns an
empty list, so `reduceDivGo` is the only error source (`int()` raising
`ValueError`, or a zero divisor). -/
def frOfStr (s : List Char) : PyVal :=
  match splitCh '/' s with
  | [] => .pnone
  | p :: ps =>
      match pyIntOpt p with
      | none => .pnone
      | some v =>
          match reduceDivGo (PyFrac.ofInt v) ps with
          | .ok q => .int (pyRoundF q)
          | .error .zeroDivisionError => .int 0
          | .error _ => .pnone

/-- The framerate computation as run inside `FFStream.__init__`:
`self.__dict__.get('avg_frame_rate', '')` must be a string (else `.split`
raises `AttributeError`, uncaught); on a string the handlers of `frOfStr`
apply. -/
def framerateVal (d : Dict) : Except PyErr PyVal :=
  match dictGetD d avgK with
  | .str s => .ok (frOfStr s)
  | _ => .error .attributeError

/-- One iteration of the loop in `FFStream.__init__`: split the stripped line
on `=`; fewer than two parts make the `key, value, *_` unpacking raise
`ValueError`; otherwise store the field and recompute `framerate`. -/
def streamStep (d : Dict) (line : List Char) : Except PyErr Dict :=
  match splitCh '=' (pyStrip line) with
  | k :: v :: _ =>
      let d1 := dictSet d k (.str v)
      match framerateVal d1 with
      | .ok fv => .ok (dictSet d1 frK fv)
      | .error e => .error e
  | _ => .error .valueError

/-- `FFStream(data_lines)`. -/
def ffstreamInit (dataLines : List (List Char)) : Except PyErr Dict :=
  runLines streamStep [] dataLines

/-- Total companion of `framerateVal` (they agree on every dictionary whose
`avg_frame_rate` entry is a string or absent; see `framerateVal_eq_total`). -/
def frTotal (d : Dict) : PyVal :=
  match dictGetD d avgK with
  | .str s => frOfStr s
  | _ => .pnone

/-- Total companion of `streamStep` (agrees on well-formed lines). -/
def stepTotal (d : Dict) (line : List Char) : Dict :=
  match splitCh '=' (pyStrip line) with
  | k :: v :: _ =>
      let d1 := dictSet d k (.str v)
      dictSet d1 frK (frTotal d1)
  | _ => d

/-- Total companion of `ffstreamInit` (agrees on well-formed blocks). -/
def ffDictTotal (dataLines : List (List Char)) : Dict := dataLines.foldl stepTotal []

/-- `FFStream.is_audio`. -/
def is_audio (d : Dict) : Bool := decide (dictGet d ctK = some (.str (ls "audio")))

/-- `FFStream.is_video`. -/
def is_video (d : Dict) : Bool := decide (dictGet d ctK = some (.str (ls "video")))

/-- `FFStream.is_subtitle`. -/
def is_subtitle (d : Dict) : Bool := decide (dictGet d ctK = some (.str (ls "subtitle")))

/-- `FFStream.is_attachment`. -/
def is_attachment (d : Dict) : Bool := decide (dictGet d ctK = some (.str (ls "attachment")))

/-- Python `int(x)` on an attribute value. -/
def pyIntValOf : PyVal → Except PyErr Int
  | .str s =>
      match pyIntOpt s with
      | some n => .ok n
      | none => .error .valueError
  | .int n => .ok n
  | .pnone => .error .typeError

/-- Python `float(x)` on an attribute value. -/
def pyFloatValOf : PyVal → Except PyErr ℚ
  | .str s =>
      match pyFloatOpt s with
      | some q => .ok q
      | none => .error .valueError
  | .int n => .ok (n : ℚ)
  | .pnone => .error .typeError

/-- `datetime.strptime(x, "%H:%M:%S,%f")` on an attribute value. -/
def pyStrptimeValOf : PyVal → Except PyErr (Nat × Nat × Nat × Nat)
  | .str s =>
      match strptimeHMSf s with
      | some t => .ok t
      | none => .error .valueError
  | _ => .error .typeError

/-- `FFStream.frames`: `int(get('nb_frames', ''))` for video/audio streams,
`ValueError` re-raised as `FFProbeError`; `0` otherwise. -/
def frames (d : Dict) : Except PyErr Int :=
  if is_video d || is_audio d then
    match pyIntValOf (dictGetD d nbFramesK) with
    | .ok n => .ok n
    | .error .valueError => .error .ffprobeError
    | .error e => .error e
  else .ok 0

/-- `FFStream.bit_rate`. -/
def bit_rate (d : Dict) : Except PyErr Int :=
  match pyIntValOf (dictGetD d bitRateK) with
  | .ok n => .ok n
  | .error .valueError => .error .ffprobeError
  | .error e => .error e

/-- `FFStream.audio_channels`. -/
def audio_channels (d : Dict) : Except PyErr Int :=
  match pyIntValOf (dictGetD d channelsK) with
  | .ok n => .ok n
  | .error .valueError => .error .ffprobeError
  | .error e => .error e

/-- `FFStream.duration_seconds`: `float(duration)`, falling back to
`strptime(TAG:DURATION, "%H:%M:%S,%f")`, falling back to `0` when both raw
values are literally `N/A`; when none of these applies the local variable
`duration` is never assigned and `return duration` raises
`UnboundLocalError`.  Non-video/audio streams return `0.0`. -/
def duration_seconds (d : Dict) : Except PyErr ℚ :=
  if is_video d || is_audio d then
    match pyFloatValOf (dictGetD d durK) with
    | .ok q => .ok q
    | .error .valueError =>
        match pyStrptimeValOf (dictGetD d tagDurK) with
        | .ok (h, m, s, us) =>
            .ok ((s : ℚ) + (m : ℚ) * 60 + (h : ℚ) * 3600 + (us : ℚ) / 1000000)
        | .error .valueError =>
            if dictGetD d durK = .str naV ∧ dictGetD d tagDurK = .str naV then .ok 0
            else .error .unboundLocalError
        | .error e => .error e
    | .error e => .error e
  else .ok 0

/-- State of the stdout stream-block loop: the `stream` flag, the accumulator
`data_lines`, and `self.streams`. -/
structure OutState where
  stream : Bool
  dataLines : List (List Char)
  streams : List Dict
deriving DecidableEq

/-- One iteration of the stdout loop in `FFProbe.__init__`. -/
def stdoutStep (st : OutState) (line : List Char) : Except PyErr OutState :=
  if hasSub sOPEN line then .ok { st with stream := true, dataLines := [] }
  else if hasSub sCLOSE line && st.stream then
    match ffstreamInit st.dataLines with
    | .ok d => .ok { st with stream := false, streams := st.streams ++ [d] }
    | .error e => .error e
  else if st.stream then .ok { st with dataLines := st.dataLines ++ [line] }
  else .ok st

/-- The whole stdout loop, from the initial state. -/
def parseStdout (lines : List (List Char)) : Except PyErr OutState :=
  runLines stdoutStep { stream := false, dataLines := [], streams := [] } lines

/-- `re.search(r'(\w+)\s*:\s*(.*)$', s)` attempted at the start of `s`: a
maximal nonempty `\w+` run, optional whitespace, a colon, then the rest with
its leading whitespace dropped.  (Backtracking the greedy `\w+` can never
help: every character given back is a word character, which neither `\s*` nor
`:` can consume.) -/
def matchKV (s : List Char) : Option (List Char × List Char) :=
  let w := s.takeWhile isWordChar
  if w.isEmpty then none
  else
    match (s.dropWhile isWordChar).dropWhile isPySpace with
    | ':' :: tail => some (w, tail.dropWhile isPySpace)
    | _ => none

/-- `re.search`: leftmost match of the key/value pattern anywhere in `s`. -/
def reSearchKV : List Char → Option (List Char × List Char)
  | [] => none
  | c :: rest =>
      match matchKV (c :: rest) with
      | some kv => some kv
      | none => reSearchKV rest

/-- One metadata segment: on a match store `key -> value.strip()`; with no
match `m` is `None` and `m.groups()` raises `AttributeError`. -/
def metaSegStep (md : MDict) (seg : List Char) : Except PyErr MDict :=
  match reSearchKV seg with
  | some (k, v) => .ok (dictSet md k (pyStrip v))
  | none => .error .attributeError

/-- State of the stderr loop: the metadata flags and mapping, plus the same
block-parsing state as the stdout loop (which the stderr loop also runs). -/
structure ErrState where
  isMeta : Bool
  met : Bool
  md : MDict
  stream : Bool
  dataLines : List (List Char)
  streams : List Dict
deriving DecidableEq

/-- One iteration of the stderr loop in `FFProbe.__init__`: first the
metadata `if` chain, then the stream-block `if` chain. -/
def stderrStep (st : ErrState) (line : List Char) : Except PyErr ErrState :=
  let c1 : Except PyErr ErrState :=
    if hasSub sMETA line && !st.met then .ok { st with isMeta := true }
    else if hasSub sSTREAMH line then .ok { st with isMeta := false, met := true }
    else if st.isMeta then
      match runLines metaSegStep st.md (splitCh ',' line) with
      | .ok md' => .ok { st with md := md' }
      | .error e => .error e
    else .ok st
  match c1 with
  | .error e => .error e
  | .ok s1 =>
      if hasSub sOPEN line then .ok { s1 with stream := true, dataLines := [] }
      else if hasSub sCLOSE line && s1.stream then
        match ffstreamInit s1.dataLines with
        | .ok d => .ok { s1 with stream := false, streams := s1.streams ++ [d] }
        | .error e => .error e
      else if s1.stream then .ok { s1 with dataLines := s1.dataLines ++ [line] }
      else .ok s1

/-- The aggregated result of `FFProbe.__init__`. -/
structure ProbeResult where
  streams : List Dict
  video : List Dict
  audio : List Dict
  subtitle : List Dict
  attachment : List Dict
  metadata : MDict
deriving DecidableEq

/-- One iteration of the classification loop over `self.streams`. -/
def classifyStep (pr : ProbeResult) (s : Dict) : ProbeResult :=
  if is_audio s then { pr with audio := pr.audio ++ [s] }
  else if is_video s then { pr with video := pr.video ++ [s] }
  else if is_subtitle s then { pr with subtitle := pr.subtitle ++ [s] }
  else if is_attachment s then { pr with attachment := pr.attachment ++ [s] }
  else pr

/-- The classification pass, run after both loops. -/
def mkResult (ss : List Dict) (md : MDict) : ProbeResult :=
  ss.foldl classifyStep
    { streams := ss, video := [], audio := [], subtitle := [], attachment := [], metadata := md }

/-- The core of `FFProbe.__init__` after the external process has supplied the
stdout and stderr line sequences: run the stdout loop, run the stderr loop
(continuing with the carried-over `stream`/`data_lines`/`streams` state), then
classify. -/
def probeCore (outLines errLines : List (List Char)) : Except PyErr ProbeResult :=
  match parseStdout outLines with
  | .error e => .error e
  | .ok o =>
      match runLines stderrStep
          { isMeta := false, met := false, md := [],
            stream := o.stream, dataLines := o.dataLines, streams := o.streams } errLines with
      | .error e => .error e
      | .ok e => .ok (mkResult e.streams e.md)

/-- A well-delimited `[STREAM]`…`[/STREAM]` region of the input: the opening
marker line, the accumulated body lines, the closing marker line. -/
structure Blk where
  openL : List Char
  body : List (List Char)
  closeL : List Char

/-- The raw lines of a block. -/
def Blk.lines (b : Blk) : List (List Char) := b.openL :: (b.body ++ [b.closeL])

/-- Well-formedness of one block: the opening line carries `[STREAM]`, body
lines carry neither marker and have the `key=value` shape, the closing line
carries `[/STREAM]` but not `[STREAM]`. -/
def wfBlk (b : Blk) : Prop :=
  hasSub sOPEN b.openL = true ∧
    (∀ l ∈ b.body, hasSub sOPEN l = false ∧ hasSub sCLOSE l = false ∧ '=' ∈ pyStrip l) ∧
    hasSub sCLOSE b.closeL = true ∧ hasSub sOPEN b.closeL = false

/-- Lines outside any block: they must not open a block. -/
def wfJunk (j : List (List Char)) : Prop := ∀ l ∈ j, hasSub sOPEN l = false

/-- An input built from delimited blocks, each followed by junk lines. -/
def flattenSegs : List (Blk × List (List Char)) → List (List Char)
  | [] => []
  | (b, j) :: rest => b.lines ++ (j ++ flattenSegs rest)

/-- Well-formedness of a block/junk sequence. -/
def wfSegs (segs : List (Blk × List (List Char))) : Prop :=
  ∀ p ∈ segs, wfBlk p.1 ∧ wfJunk p.2

instance (b : Blk) : Decidable (wfBlk b) := by unfold wfBlk; infer_instance

instance (j : List (List Char)) : Decidable (wfJunk j) := by unfold wfJunk; infer_instance

instance (segs : List (Blk × List (List Char))) : Decidable (wfSegs segs) := by
  unfold wfSegs; infer_instance

/-- The invariant of reachable `FFStream` dictionaries: the `avg_frame_rate`
entry, when present, is a string (only the `framerate` key ever holds an int
or `None`). -/
def GoodDict (d : Dict) : Prop := ∀ v, dictGet d avgK = some v → ∃ s, v = PyVal.str s

/-- The record parsed from the single block line `codec_type=video`. -/
def demoVid : Dict := [(ctK, .str (ls "video")), (frK, .pnone)]

/-- The record parsed from the block lines `codec_type=video`,
`duration=N/A`, `TAG:DURATION=N/A`. -/
def demoNA : Dict := [(ctK, .str (ls "video")), (frK, .pnone), (durK, .str naV),
  (tagDurK, .str naV)]

/-- An audio record carrying a numeric `nb_frames` field. -/
def demoNb : Dict := [(ctK, .str (ls "audio")), (nbFramesK, .str (ls "42"))]

/-- An audio record whose only duration information is a `TAG:DURATION`. -/
def demoTime : Dict := [(ctK, .str (ls "audio")), (tagDurK, .str (ls "01:02:03,5"))]

/-- The record parsed from the single block line `a=b`. -/
def demoAB : Dict := [(ls "a", .str (ls "b")), (frK, .pnone)]

/-- The probe result of a stdout dump holding one video stream block. -/
def demoPrC3 : ProbeResult := ⟨[demoVid], [demoVid], [], [], [], []⟩

/-- Number of occurrences of a record in a stream list. -/
def countD (a : Dict) : List Dict → Nat
  | [] => 0
  | x :: t => (if x = a then 1 else 0) + countD a t

/-- A stderr-loop state whose metadata section has already closed. -/
def demoErrSt : ErrState := ⟨false, true, [(ls "k", ls "v")], false, [], []⟩

/-- A one-block well-formed segment list. -/
def demoSegs : List (Blk × List (List Char)) :=
  [(⟨ls "[STREAM]", [ls "a=b"], ls "[/STREAM]"⟩, [ls "tail"])]

/-! ### Basic lemmas about the dictionary and string helpers -/

theorem dictGet_dictSet_self {α : Type} (m : List (List Char × α)) (k : List Char) (v : α) :
    dictGet (dictSet m k v) k = some v := by
  induction m with
  | nil => simp [dictSet, dictGet]
  | cons h t ih =>
      obtain ⟨k', v'⟩ := h
      by_cases hk : k' = k
      · simp [dictSet, hk, dictGet]
      · simp [dictSet, hk, dictGet, ih]

theorem dictGet_dictSet_ne {α : Type} (m : List (List Char × α)) {k k' : List Char} (v : α)
    (h : k' ≠ k) : dictGet (dictSet m k v) k' = dictGet m k' := by
  induction m with
  | nil =>
      simp only [dictSet, dictGet]
      rw [if_neg (fun hh : k = k' => h hh.symm)]
  | cons hd t ih =>
      obtain ⟨k₀, v₀⟩ := hd
      by_cases hk : k₀ = k
      · subst hk
        simp only [dictSet, if_pos rfl, dictGet]
        rw [if_neg (fun hh : k₀ = k' => h hh.symm), if_neg (fun hh : k₀ = k' => h hh.symm)]
      · simp only [dictSet, if_neg hk, dictGet]
        by_cases hk' : k₀ = k'
        · rw [if_pos hk', if_pos hk']
        · rw [if_neg hk', if_neg hk', ih]

theorem splitCh_ne_nil (c : Char) (s : List Char) : splitCh c s ≠ [] := by
  cases s with
  | nil => simp [splitCh]
  | cons x xs =>
      by_cases hx : x = c
      · simp [splitCh, hx]
      · simp only [splitCh, hx, if_false]
        cases h : splitCh c xs <;> simp

theorem splitCh_of_not_mem {c : Char} {s : List Char} (h : c ∉ s) : splitCh c s = [s] := by
  induction s with
  | nil => simp [splitCh]
  | cons x xs ih =>
      have hx : x ≠ c := fun e => h (by simp [e])
      have hxs : c ∉ xs := fun e => h (by simp [e])
      simp [splitCh, hx, ih hxs]

theorem splitCh_append {c : Char} {xs : List Char} (ys : List Char) (h : c ∉ xs) :
    splitCh c (xs ++ c :: ys) = xs :: splitCh c ys := by
  induction xs with
  | nil => simp [splitCh]
  | cons x t ih =>
      have hx : x ≠ c := fun e => h (by simp [e])
      have ht : c ∉ t := fun e => h (by simp [e])
      rw [List.cons_append]
      simp only [splitCh, hx, if_false, List.append_eq]
      rw [ih ht]

theorem splitCh_two_le {c : Char} {s : List Char} (h : c ∈ s) :
    2 ≤ (splitCh c s).length := by
  induction s with
  | nil => cases h
  | cons x xs ih =>
      by_cases hx : x = c
      · have := splitCh_ne_nil c xs
        simp only [splitCh, hx, if_true]
        cases hs : splitCh c xs with
        | nil => exact absurd hs this
        | cons a t => simp
      · have hmem : c ∈ xs := by
          rcases List.mem_cons.mp h with h1 | h1
          · exact absurd h1.symm hx
          · exact h1
        have h2 := ih hmem
        simp only [splitCh, hx, if_false]
        cases hs : splitCh c xs with
        | nil => exact absurd hs (splitCh_ne_nil c xs)
        | cons a t => rw [hs] at h2; simpa using h2

theorem exists_cons_cons {α : Type} {l : List α} (h : 2 ≤ l.length) :
    ∃ a b t, l = a :: b :: t := by
  cases l with
  | nil => simp at h
  | cons a l' =>
      cases l' with
      | nil => simp at h
      | cons b t => exact ⟨a, b, t, rfl⟩

theorem dropWhile_eq_self_of_all {p : Char → Bool} {s : List Char}
    (h : ∀ c ∈ s, p c = false) : s.dropWhile p = s := by
  cases s with
  | nil => rfl
  | cons x xs => simp [List.dropWhile, h x (by simp)]

theorem pyStrip_eq_self {s : List Char} (h : ∀ c ∈ s, isPySpace c = false) : pyStrip s = s := by
  unfold pyStrip
  rw [dropWhile_eq_self_of_all h,
    dropWhile_eq_self_of_all (fun c hc => h c (List.mem_reverse.mp hc)), List.reverse_reverse]

theorem isPySpace_eq_false_of_isDigit {c : Char} (h : c.isDigit = true) :
    isPySpace c = false := by
  have hs : c ≠ ' ' ∧ c ≠ '\t' ∧ c ≠ '\n' ∧ c ≠ '\r' ∧ c ≠ '\x0b' ∧ c ≠ '\x0c' := by
    refine ⟨?_, ?_, ?_, ?_, ?_, ?_⟩ <;> (rintro rfl; exact absurd h (by decide))
  simp only [isPySpace, Bool.or_eq_false_iff, decide_eq_false_iff_not]
  tauto

theorem ne_of_isDigit {c x : Char} (h : c.isDigit = true) (hx : x.isDigit = false) : c ≠ x := by
  rintro rfl; rw [h] at hx; cases hx

/-! ### Lemmas about `runLines` -/

theorem runLines_nil {σ : Type} (step : σ → List Char → Except PyErr σ) (s : σ) :
    runLines step s [] = .ok s := rfl

theorem runLines_cons {σ : Type} (step : σ → List Char → Except PyErr σ) (s : σ)
    (l : List Char) (rest : List (List Char)) :
    runLines step s (l :: rest) =
      match step s l with
      | .ok s' => runLines step s' rest
      | .error e => .error e := rfl

theorem runLines_cons_ok {σ : Type} {step : σ → List Char → Except PyErr σ} {s s' : σ}
    {l : List Char} (rest : List (List Char)) (h : step s l = .ok s') :
    runLines step s (l :: rest) = runLines step s' rest := by
  rw [runLines_cons, h]

theorem runLines_cons_err {σ : Type} {step : σ → List Char → Except PyErr σ} {s : σ}
    {l : List Char} {e : PyErr} (rest : List (List Char)) (h : step s l = .error e) :
    runLines step s (l :: rest) = .error e := by
  rw [runLines_cons, h]

theorem runLines_append_ok {σ : Type} {step : σ → List Char → Except PyErr σ} {s m : σ}
    {xs : List (List Char)} (h : runLines step s xs = .ok m) (ys : List (List Char)) :
    runLines step s (xs ++ ys) = runLines step m ys := by
  induction xs generalizing s with
  | nil => simp only [runLines] at h; cases h; rfl
  | cons l t ih =>
      rw [runLines_cons] at h
      cases hs : step s l with
      | ok s' =>
          rw [hs] at h
          rw [List.cons_append, runLines_cons, hs]
          exact ih h
      | error e => rw [hs] at h; cases h

theorem runLines_append_inv {σ : Type} {step : σ → List Char → Except PyErr σ} {s r : σ}
    {xs ys : List (List Char)} (h : runLines step s (xs ++ ys) = .ok r) :
    ∃ m, runLines step s xs = .ok m ∧ runLines step m ys = .ok r := by
  induction xs generalizing s with
  | nil => exact ⟨s, rfl, h⟩
  | cons l t ih =>
      rw [List.cons_append, runLines_cons] at h
      cases hs : step s l with
      | ok s' =>
          rw [hs] at h
          obtain ⟨m, hm1, hm2⟩ := ih h
          exact ⟨m, by rw [runLines_cons, hs]; exact hm1, hm2⟩
      | error e => rw [hs] at h; cases h

/-! ### The framerate invariant: in every reachable `__dict__` the
`avg_frame_rate` entry is a string, so the uncaught `AttributeError` branch of
`framerateVal` is dead and the total companions agree with the real code. -/

theorem GoodDict_nil : GoodDict [] := by intro v h; simp [dictGet] at h

theorem GoodDict_set_str {d : Dict} (hg : GoodDict d) (k s : List Char) :
    GoodDict (dictSet d k (.str s)) := by
  intro v hv
  by_cases hk : avgK = k
  · subst hk
    rw [dictGet_dictSet_self] at hv
    exact ⟨s, (Option.some_injective _ hv.symm)⟩
  · rw [dictGet_dictSet_ne _ _ hk] at hv
    exact hg v hv

theorem GoodDict_set_fr {d : Dict} (hg : GoodDict d) (fv : PyVal) :
    GoodDict (dictSet d frK fv) := by
  intro v hv
  rw [dictGet_dictSet_ne _ _ (by decide)] at hv
  exact hg v hv

theorem framerateVal_eq_total {d : Dict} (hg : GoodDict d) :
    framerateVal d = .ok (frTotal d) := by
  unfold framerateVal frTotal dictGetD
  cases hget : dictGet d avgK with
  | none => simp
  | some v =>
      obtain ⟨s, rfl⟩ := hg v hget
      simp

theorem framerateVal_congr {d d' : Dict} (h : dictGet d avgK = dictGet d' avgK) :
    framerateVal d = framerateVal d' := by
  unfold framerateVal dictGetD
  rw [h]

theorem streamStep_ok {d : Dict} {line : List Char} (hg : GoodDict d)
    (hl : '=' ∈ pyStrip line) :
    streamStep d line = .ok (stepTotal d line) ∧ GoodDict (stepTotal d line) := by
  obtain ⟨k, v, t, hsp⟩ := exists_cons_cons (splitCh_two_le hl)
  have hg1 : GoodDict (dictSet d k (.str v)) := GoodDict_set_str hg k v
  constructor
  · unfold streamStep stepTotal
    rw [hsp]
    simp only [framerateVal_eq_total hg1]
  · unfold stepTotal
    rw [hsp]
    exact GoodDict_set_fr hg1 _

theorem streamStep_err {d : Dict} {line : List Char} (h : '=' ∉ pyStrip line) :
    streamStep d line = .error .valueError := by
  unfold streamStep
  rw [splitCh_of_not_mem h]

theorem runStream_ok {lines : List (List Char)} (hw : ∀ l ∈ lines, '=' ∈ pyStrip l) :
    ∀ d : Dict, GoodDict d →
      runLines streamStep d lines = .ok (lines.foldl stepTotal d) ∧
        GoodDict (lines.foldl stepTotal d) := by
  induction lines with
  | nil => intro d hg; exact ⟨rfl, hg⟩
  | cons l t ih =>
      intro d hg
      have hstep := streamStep_ok hg (hw l (by simp))
      have ihp := ih (fun x hx => hw x (by simp [hx])) (stepTotal d l) hstep.2
      refine ⟨?_, by simpa using ihp.2⟩
      rw [runLines_cons, hstep.1]
      simpa using ihp.1

theorem ffstreamInit_ok {lines : List (List Char)} (hw : ∀ l ∈ lines, '=' ∈ pyStrip l) :
    ffstreamInit lines = .ok (ffDictTotal lines) :=
  (runStream_ok hw [] GoodDict_nil).1

/-! ### The stdout stream-block state machine on well-formed input -/

theorem stdout_junk {j : List (List Char)} (hw : wfJunk j) :
    ∀ st : OutState, st.stream = false → runLines stdoutStep st j = .ok st := by
  induction j with
  | nil => intro st _; rfl
  | cons l t ih =>
      intro st hst
      have h1 : hasSub sOPEN l = false := hw l (by simp)
      have hstep : stdoutStep st l = .ok st := by
        simp [stdoutStep, h1, hst]
      rw [runLines_cons_ok t hstep]
      exact ih (fun x hx => hw x (by simp [hx])) st hst

theorem stdout_body {body : List (List Char)}
    (hw : ∀ l ∈ body, hasSub sOPEN l = false ∧ hasSub sCLOSE l = false) :
    ∀ acc streams, runLines stdoutStep ⟨true, acc, streams⟩ body =
      .ok ⟨true, acc ++ body, streams⟩ := by
  induction body with
  | nil => intro acc streams; simp [runLines]
  | cons l t ih =>
      intro acc streams
      obtain ⟨h1, h2⟩ := hw l (by simp)
      have hstep : stdoutStep ⟨true, acc, streams⟩ l = .ok ⟨true, acc ++ [l], streams⟩ := by
        simp [stdoutStep, h1, h2]
      rw [runLines_cons_ok t hstep, ih (fun x hx => hw x (by simp [hx])) (acc ++ [l]) streams]
      simp

theorem stdout_block {b : Blk} (hw : wfBlk b) :
    ∀ st : OutState, st.stream = false →
      runLines stdoutStep st b.lines =
        .ok ⟨false, b.body, st.streams ++ [ffDictTotal b.body]⟩ := by
  obtain ⟨ho, hb, hc, hco⟩ := hw
  intro st hst
  have hopen : stdoutStep st b.openL = .ok ⟨true, [], st.streams⟩ := by
    simp [stdoutStep, ho]
  have hbody := stdout_body (fun l hl => ⟨(hb l hl).1, (hb l hl).2.1⟩) [] st.streams
  rw [List.nil_append] at hbody
  have hclose : stdoutStep ⟨true, b.body, st.streams⟩ b.closeL =
      .ok ⟨false, b.body, st.streams ++ [ffDictTotal b.body]⟩ := by
    have hinit := ffstreamInit_ok (fun l hl => (hb l hl).2.2)
    simp [stdoutStep, hco, hc, hinit]
  show runLines stdoutStep st (b.openL :: (b.body ++ [b.closeL])) = _
  rw [runLines_cons_ok _ hopen, runLines_append_ok hbody, runLines_cons_ok _ hclose,
    runLines_nil]

theorem stdout_segs {segs : List (Blk × List (List Char))} (hw : wfSegs segs) :
    ∀ st : OutState, st.stream = false →
      ∃ dl, runLines stdoutStep st (flattenSegs segs) =
        .ok ⟨false, dl, st.streams ++ segs.map (fun p => ffDictTotal p.1.body)⟩ := by
  induction segs with
  | nil =>
      intro st hst
      refine ⟨st.dataLines, ?_⟩
      cases st
      simp_all [flattenSegs, runLines]
  | cons p rest ih =>
      intro st hst
      obtain ⟨b, j⟩ := p
      obtain ⟨hwb, hwj⟩ := hw (b, j) (by simp)
      have hblk := stdout_block hwb st hst
      have hjunk := stdout_junk hwj ⟨false, b.body, st.streams ++ [ffDictTotal b.body]⟩ rfl
      obtain ⟨dl, hdl⟩ :=
        ih (fun q hq => hw q (by simp [hq])) ⟨false, b.body, st.streams ++ [ffDictTotal b.body]⟩ rfl
      refine ⟨dl, ?_⟩
      show runLines stdoutStep st (b.lines ++ (j ++ flattenSegs rest)) = _
      rw [runLines_append_ok hblk, runLines_append_ok hjunk, hdl]
      simp

/-! ### The stderr loop once `stream_metadata_met` is set: the metadata chain
is inert and the loop behaves exactly like the stdout stream-block machine. -/

theorem stderrStep_sim (st : ErrState) (line : List Char) (hm : st.met = true)
    (hi : st.isMeta = false) :
    stderrStep st line =
      (stdoutStep ⟨st.stream, st.dataLines, st.streams⟩ line).map
        (fun o => ⟨false, true, st.md, o.stream, o.dataLines, o.streams⟩) := by
  obtain ⟨im, mt, md, s, dl, ss⟩ := st
  simp only at hm hi
  subst hm; subst hi
  unfold stderrStep stdoutStep
  simp only [Bool.not_true, Bool.and_false, Bool.false_eq_true, if_false, ite_self]
  by_cases h1 : hasSub sOPEN line = true
  · simp [h1, Except.map]
  · by_cases h2 : hasSub sCLOSE line = true
    · cases s with
      | false => simp [h1, h2, Except.map]
      | true =>
          cases hinit : ffstreamInit dl with
          | ok d => simp [h1, h2, hinit, Except.map]
          | error e => simp [h1, h2, hinit, Except.map]
    · cases s with
      | false => simp [h1, h2, Except.map]
      | true => simp [h1, h2, Except.map]

theorem runLines_sim (lines : List (List Char)) :
    ∀ st : ErrState, st.met = true → st.isMeta = false →
      runLines stderrStep st lines =
        (runLines stdoutStep ⟨st.stream, st.dataLines, st.streams⟩ lines).map
          (fun o => ⟨false, true, st.md, o.stream, o.dataLines, o.streams⟩) := by
  induction lines with
  | nil =>
      intro st hm hi
      obtain ⟨im, mt, md, s, dl, ss⟩ := st
      simp only at hm hi
      subst hm; subst hi
      simp [runLines, Except.map]
  | cons l t ih =>
      intro st hm hi
      cases ho : stdoutStep ⟨st.stream, st.dataLines, st.streams⟩ l with
      | error e =>
          have hl : stderrStep st l = .error e := by
            rw [stderrStep_sim st l hm hi, ho]; rfl
          rw [runLines_cons_err t hl, runLines_cons_err t ho]
          rfl
      | ok o =>
          have hl : stderrStep st l =
              .ok ⟨false, true, st.md, o.stream, o.dataLines, o.streams⟩ := by
            rw [stderrStep_sim st l hm hi, ho]; rfl
          rw [runLines_cons_ok t hl, runLines_cons_ok t ho]
          have h := ih ⟨false, true, st.md, o.stream, o.dataLines, o.streams⟩ rfl rfl
          simpa using h

/-! ### The classification pass -/

theorem ct_excl {d : Dict} {v w : List Char}
    (h : decide (dictGet d ctK = some (.str v)) = true) (hvw : v ≠ w) :
    decide (dictGet d ctK = some (.str w)) = false := by
  have hv := of_decide_eq_true h
  simp only [hv, Option.some.injEq, PyVal.str.injEq, decide_eq_false_iff_not]
  exact fun e => hvw e

theorem classify_fold (ss : List Dict) :
    ∀ pr : ProbeResult,
      (ss.foldl classifyStep pr).streams = pr.streams ∧
      (ss.foldl classifyStep pr).metadata = pr.metadata ∧
      (ss.foldl classifyStep pr).audio = pr.audio ++ ss.filter is_audio ∧
      (ss.foldl classifyStep pr).video =
        pr.video ++ ss.filter (fun s => !is_audio s && is_video s) ∧
      (ss.foldl classifyStep pr).subtitle =
        pr.subtitle ++ ss.filter (fun s => !is_audio s && !is_video s && is_subtitle s) ∧
      (ss.foldl classifyStep pr).attachment =
        pr.attachment ++
          ss.filter (fun s => !is_audio s && !is_video s && !is_subtitle s && is_attachment s) := by
  induction ss with
  | nil => intro pr; simp
  | cons s t ih =>
      intro pr
      rw [List.foldl_cons]
      by_cases ha : is_audio s = true
      · have hcs : classifyStep pr s = { pr with audio := pr.audio ++ [s] } := by
          simp [classifyStep, ha]
        rw [hcs]
        obtain ⟨i1, i2, i3, i4, i5, i6⟩ := ih { pr with audio := pr.audio ++ [s] }
        exact ⟨i1, i2,
          by rw [i3]; simp [List.filter_cons, ha],
          by rw [i4]; simp [List.filter_cons, ha],
          by rw [i5]; simp [List.filter_cons, ha],
          by rw [i6]; simp [List.filter_cons, ha]⟩
      · rw [Bool.not_eq_true] at ha
        by_cases hv : is_video s = true
        · have hcs : classifyStep pr s = { pr with video := pr.video ++ [s] } := by
            simp [classifyStep, ha, hv]
          rw [hcs]
          obtain ⟨i1, i2, i3, i4, i5, i6⟩ := ih { pr with video := pr.video ++ [s] }
          exact ⟨i1, i2,
            by rw [i3]; simp [List.filter_cons, ha],
            by rw [i4]; simp [List.filter_cons, ha, hv],
            by rw [i5]; simp [List.filter_cons, ha, hv],
            by rw [i6]; simp [List.filter_cons, ha, hv]⟩
        · rw [Bool.not_eq_true] at hv
          by_cases hs : is_subtitle s = true
          · have hcs : classifyStep pr s = { pr with subtitle := pr.subtitle ++ [s] } := by
              simp [classifyStep, ha, hv, hs]
            rw [hcs]
            obtain ⟨i1, i2, i3, i4, i5, i6⟩ := ih { pr with subtitle := pr.subtitle ++ [s] }
            exact ⟨i1, i2,
              by rw [i3]; simp [List.filter_cons, ha],
              by rw [i4]; simp [List.filter_cons, ha, hv],
              by rw [i5]; simp [List.filter_cons, ha, hv, hs],
              by rw [i6]; simp [List.filter_cons, ha, hv, hs]⟩
          · rw [Bool.not_eq_true] at hs
            by_cases hat : is_attachment s = true
            · have hcs : classifyStep pr s = { pr with attachment := pr.attachment ++ [s] } := by
                simp [classifyStep, ha, hv, hs, hat]
              rw [hcs]
              obtain ⟨i1, i2, i3, i4, i5, i6⟩ := ih { pr with attachment := pr.attachment ++ [s] }
              exact ⟨i1, i2,
                by rw [i3]; simp [List.filter_cons, ha],
                by rw [i4]; simp [List.filter_cons, ha, hv],
                by rw [i5]; simp [List.filter_cons, ha, hv, hs],
                by rw [i6]; simp [List.filter_cons, ha, hv, hs, hat]⟩
            · rw [Bool.not_eq_true] at hat
              have hcs : classifyStep pr s = pr := by
                simp [classifyStep, ha, hv, hs, hat]
              rw [hcs]
              obtain ⟨i1, i2, i3, i4, i5, i6⟩ := ih pr
              exact ⟨i1, i2,
                by rw [i3]; simp [List.filter_cons, ha],
                by rw [i4]; simp [List.filter_cons, ha, hv],
                by rw [i5]; simp [List.filter_cons, ha, hv, hs],
                by rw [i6]; simp [List.filter_cons, ha, hv, hs, hat]⟩

theorem video_filter_eq (ss : List Dict) :
    ss.filter (fun s => !is_audio s && is_video s) = ss.filter is_video := by
  apply List.filter_congr
  intro s _
  cases hv : is_video s with
  | false => simp
  | true =>
      have : is_audio s = false := ct_excl hv (by decide)
      simp [this]

theorem subtitle_filter_eq (ss : List Dict) :
    ss.filter (fun s => !is_audio s && !is_video s && is_subtitle s) =
      ss.filter is_subtitle := by
  apply List.filter_congr
  intro s _
  cases hs : is_subtitle s with
  | false => simp
  | true =>
      have h1 : is_audio s = false := ct_excl hs (by decide)
      have h2 : is_video s = false := ct_excl hs (by decide)
      simp [h1, h2]

theorem attachment_filter_eq (ss : List Dict) :
    ss.filter (fun s => !is_audio s && !is_video s && !is_subtitle s && is_attachment s) =
      ss.filter is_attachment := by
  apply List.filter_congr
  intro s _
  cases hat : is_attachment s with
  | false => simp
  | true =>
      have h1 : is_audio s = false := ct_excl hat (by decide)
      have h2 : is_video s = false := ct_excl hat (by decide)
      have h3 : is_subtitle s = false := ct_excl hat (by decide)
      simp [h1, h2, h3]

theorem mkResult_spec (ss : List Dict) (md : MDict) :
    (mkResult ss md).streams = ss ∧ (mkResult ss md).metadata = md ∧
    (mkResult ss md).audio = ss.filter is_audio ∧
    (mkResult ss md).video = ss.filter is_video ∧
    (mkResult ss md).subtitle = ss.filter is_subtitle ∧
    (mkResult ss md).attachment = ss.filter is_attachment := by
  obtain ⟨i1, i2, i3, i4, i5, i6⟩ := classify_fold ss ⟨ss, [], [], [], [], md⟩
  refine ⟨by simpa using i1, by simpa using i2, by simpa using i3, ?_, ?_, ?_⟩
  · rw [mkResult, i4, video_filter_eq]; simp
  · rw [mkResult, i5, subtitle_filter_eq]; simp
  · rw [mkResult, i6, attachment_filter_eq]; simp

/-! ### `pyRoundF` agrees with the rational rounding spec -/

theorem pyRoundF_eq {n d : Int} (hd : 0 < d) :
    pyRoundF ⟨n, d⟩ = pyRound ((n : ℚ) / (d : ℚ)) := by
  have hdq : (0 : ℚ) < (d : ℚ) := by exact_mod_cast hd
  have hmod1 : 0 ≤ n % d := Int.emod_nonneg n (by omega)
  have hmod2 : n % d < d := Int.emod_lt_of_pos n hd
  have hsum : d * (n / d) + n % d = n := Int.ediv_add_emod n d
  have hsumq : (d : ℚ) * ((n / d : Int) : ℚ) + ((n % d : Int) : ℚ) = (n : ℚ) := by
    exact_mod_cast hsum
  have hmod1q : (0 : ℚ) ≤ ((n % d : Int) : ℚ) := by exact_mod_cast hmod1
  have hmod2q : ((n % d : Int) : ℚ) < (d : ℚ) := by exact_mod_cast hmod2
  have hfl : Int.floor ((n : ℚ) / (d : ℚ)) = n / d := by
    rw [Int.floor_eq_iff]
    constructor
    · rw [le_div_iff₀ hdq]
      nlinarith [hsumq, hmod1q]
    · rw [div_lt_iff₀ hdq]
      nlinarith [hsumq, hmod2q]
  have ht : (n : ℚ) / (d : ℚ) - ((n / d : Int) : ℚ) = ((n - n / d * d : Int) : ℚ) / (d : ℚ) := by
    push_cast
    field_simp
    ring
  have hc1 : ((n : ℚ) / d - ((n / d : Int) : ℚ) < 1 / 2) ↔ (2 * (n - n / d * d) < d) := by
    rw [ht, div_lt_div_iff hdq (by norm_num : (0:ℚ) < 2), one_mul]
    rw [show ((n - n / d * d : Int) : ℚ) * 2 = ((2 * (n - n / d * d) : Int) : ℚ) by
      push_cast; ring]
    exact_mod_cast Iff.rfl
  have hc2 : (1 / 2 < (n : ℚ) / d - ((n / d : Int) : ℚ)) ↔ (d < 2 * (n - n / d * d)) := by
    rw [ht, div_lt_div_iff (by norm_num : (0:ℚ) < 2) hdq, one_mul]
    rw [show ((n - n / d * d : Int) : ℚ) * 2 = ((2 * (n - n / d * d) : Int) : ℚ) by
      push_cast; ring]
    exact_mod_cast Iff.rfl
  have hed : Int.ediv n d = n / d := rfl
  unfold pyRound pyRoundF
  simp only [hed, hfl, hc1, hc2]

/-! ### Helper lemmas about digit strings -/

theorem pyStrip_digits {a : List Char} (h : ∀ c ∈ a, c.isDigit = true) : pyStrip a = a :=
  pyStrip_eq_self (fun c hc => isPySpace_eq_false_of_isDigit (h c hc))

theorem not_mem_of_digits {a : List Char} (h : ∀ c ∈ a, c.isDigit = true) {x : Char}
    (hx : x.isDigit = false) : x ∉ a := fun hm => by
  have hd := h x hm
  rw [hd] at hx
  cases hx

theorem pyIntOpt_digits {a : List Char} (h : ∀ c ∈ a, c.isDigit = true) (hne : a ≠ []) :
    pyIntOpt a = some ((natOfDigits a : Int)) := by
  unfold pyIntOpt
  rw [pyStrip_digits h]
  cases a with
  | nil => exact absurd rfl hne
  | cons c cs =>
      have hc : c.isDigit = true := h c (by simp)
      have h1 : c ≠ '+' := ne_of_isDigit hc (by decide)
      have h2 : c ≠ '-' := ne_of_isDigit hc (by decide)
      have hall : (c :: cs).all Char.isDigit = true := by
        rw [List.all_eq_true]; exact h
      simp [h1, h2, readNat, hall]

/-- The `int('')` failure shared by `frames`, `bit_rate` and `audio_channels`
when their source field is absent. -/
theorem pyIntValOf_blank : pyIntValOf (PyVal.str []) = .error .valueError := by decide

/-! ### Claim C10 -/

/-- C10: `duration_seconds` is not total on video/audio records.  On the real
record parsed from the single line `codec_type=video` — a video record where
`duration` and `TAG:DURATION` are both absent, so neither raw value is the
string `N/A` — the query reaches the branch in which no result is ever
assigned and raises `UnboundLocalError` instead of returning a number. -/
theorem C10_duration_seconds_partial :
    ffstreamInit [ls "codec_type=video"] = .ok demoVid ∧
      is_video demoVid = true ∧
      dictGet demoVid durK = none ∧ dictGet demoVid tagDurK = none ∧
      duration_seconds demoVid = .error .unboundLocalError := by decide

/-! ### Claim C4 -/

/-- C4: contrary to the spec's skip-silently policy, a metadata-section
segment that does not match the `key : value` pattern is not skipped:
`re.search` returns `None`, `m.groups()` raises `AttributeError`, and the
whole parse aborts.  On stderr input `Metadata:` followed by `garbage` the
probe core raises instead of returning partial metadata. -/
theorem C4_metadata_segment_crash :
    reSearchKV (ls "garbage") = none ∧
      probeCore [] [ls "Metadata:", ls "garbage"] = .error .attributeError := by decide

/-! ### Claim C5 -/

/-- C5: counterexample — a stream-block line without `=` is not skipped:
`FFStream([' junk'])` raises `ValueError` from the `key, value, *_`
unpacking, and the stdout parse of a block containing such a line aborts with
that error instead of producing a record. -/
theorem C5_counterexample :
    ffstreamInit [ls "junk"] = .error .valueError ∧
      parseStdout [ls "[STREAM]", ls "junk", ls "[/STREAM]"] = .error .valueError := by
  decide

/-- C5 (amended): a line without `=` inside a stream block makes record
construction raise `ValueError` (the `key, value, *_` unpacking fails on the
single-element split), aborting the parse of the block and of the remaining
input, whatever lines follow. -/
theorem C5_no_eq_raises (pre : List (List Char)) (bad : List Char)
    (post : List (List Char)) (hbad : '=' ∉ pyStrip bad)
    (hpre : ∀ l ∈ pre, '=' ∈ pyStrip l) :
    ffstreamInit (pre ++ bad :: post) = .error .valueError := by
  have hrun := (runStream_ok hpre [] GoodDict_nil).1
  show runLines streamStep [] (pre ++ bad :: post) = .error .valueError
  rw [runLines_append_ok hrun]
  exact runLines_cons_err post (streamStep_err hbad)

/-- Witness for the amended C5 statement at a concrete block. -/
theorem C5_no_eq_raises_witness :
    ffstreamInit ([ls "a=b"] ++ ls "junk" :: [ls "c=d"]) = .error .valueError :=
  C5_no_eq_raises [ls "a=b"] (ls "junk") [ls "c=d"] (by decide) (by decide)

/-! ### Claim C9 -/

/-- C9: counterexample — a missing optional field is an error: the record
parsed from `codec_type=video` lacks `nb_frames`, `bit_rate` and `channels`,
and `frames`, `bit_rate` and `audio_channels` all raise `FFProbeError` on it
(the `''` default fails `int()`), instead of resolving to an absent value. -/
theorem C9_counterexample :
    ffstreamInit [ls "codec_type=video"] = .ok demoVid ∧
      dictGet demoVid nbFramesK = none ∧ frames demoVid = .error .ffprobeError ∧
      dictGet demoVid bitRateK = none ∧ bit_rate demoVid = .error .ffprobeError ∧
      dictGet demoVid channelsK = none ∧ audio_channels demoVid = .error .ffprobeError := by
  decide

/-- C9 (amended): a missing `nb_frames`/`bit_rate`/`channels` field behaves
exactly like a present non-numeric one: the `''` default fails the integer
parse, so these queries raise `FFProbeError` on absent fields too; a present
numeric field returns its integer value. -/
theorem C9_missing_fields :
    (∀ d : Dict, (is_video d || is_audio d) = true → dictGet d nbFramesK = none →
      frames d = .error .ffprobeError) ∧
    (∀ d : Dict, dictGet d bitRateK = none → bit_rate d = .error .ffprobeError) ∧
    (∀ d : Dict, dictGet d channelsK = none → audio_channels d = .error .ffprobeError) ∧
    (∀ d : Dict, ∀ s : List Char, (is_video d || is_audio d) = true →
      dictGet d nbFramesK = some (.str s) → pyIntOpt s = none →
      frames d = .error .ffprobeError) ∧
    (∀ d : Dict, ∀ s : List Char, ∀ n : Int, (is_video d || is_audio d) = true →
      dictGet d nbFramesK = some (.str s) → pyIntOpt s = some n → frames d = .ok n) ∧
    (∀ d : Dict, ∀ s : List Char, ∀ n : Int, dictGet d bitRateK = some (.str s) →
      pyIntOpt s = some n → bit_rate d = .ok n) ∧
    (∀ d : Dict, ∀ s : List Char, ∀ n : Int, dictGet d channelsK = some (.str s) →
      pyIntOpt s = some n → audio_channels d = .ok n) := by
  refine ⟨?_, ?_, ?_, ?_, ?_, ?_, ?_⟩
  · intro d hk hnone
    unfold frames
    rw [hk]
    simp [dictGetD, hnone, pyIntValOf_blank]
  · intro d hnone
    unfold bit_rate
    simp [dictGetD, hnone, pyIntValOf_blank]
  · intro d hnone
    unfold audio_channels
    simp [dictGetD, hnone, pyIntValOf_blank]
  · intro d s hk hsome hbad
    unfold frames
    rw [hk]
    simp [dictGetD, hsome, pyIntValOf, hbad]
  · intro d s n hk hsome hn
    unfold frames
    rw [hk]
    simp [dictGetD, hsome, pyIntValOf, hn]
  · intro d s n hsome hn
    unfold bit_rate
    simp [dictGetD, hsome, pyIntValOf, hn]
  · intro d s n hsome hn
    unfold audio_channels
    simp [dictGetD, hsome, pyIntValOf, hn]

/-- Witness for the amended C9 statement at concrete records. -/
theorem C9_missing_fields_witness :
    frames demoVid = .error .ffprobeError ∧
      bit_rate demoVid = .error .ffprobeError ∧
      audio_channels demoVid = .error .ffprobeError ∧
      frames demoNb = .ok 42 :=
  ⟨C9_missing_fields.1 demoVid (by decide) (by decide),
   C9_missing_fields.2.1 demoVid (by decide),
   C9_missing_fields.2.2.1 demoVid (by decide),
   C9_missing_fields.2.2.2.2.1 demoNb (ls "42") 42 (by decide) (by decide) (by decide)⟩

/-! ### Claim C8 -/

/-- C8: `duration_seconds` parses `duration` as a float; on `ValueError` it
parses `TAG:DURATION` as `HH:MM:SS,ffffff` and converts it to seconds; when
both parses fail and both raw values are the literal `N/A` it returns 0; and
non-video/audio records return 0.0.  The final conjuncts evaluate the spec's
`N/A` example on a record built by the real constructor. -/
theorem C8_duration_seconds :
    (∀ d : Dict, (is_video d || is_audio d) = false → duration_seconds d = .ok 0) ∧
    (∀ d : Dict, ∀ q : ℚ, (is_video d || is_audio d) = true →
      pyFloatValOf (dictGetD d durK) = .ok q → duration_seconds d = .ok q) ∧
    (∀ d : Dict, ∀ h m s us : Nat, (is_video d || is_audio d) = true →
      pyFloatValOf (dictGetD d durK) = .error .valueError →
      pyStrptimeValOf (dictGetD d tagDurK) = .ok (h, m, s, us) →
      duration_seconds d =
        .ok ((s : ℚ) + (m : ℚ) * 60 + (h : ℚ) * 3600 + (us : ℚ) / 1000000)) ∧
    (∀ d : Dict, (is_video d || is_audio d) = true →
      pyFloatValOf (dictGetD d durK) = .error .valueError →
      pyStrptimeValOf (dictGetD d tagDurK) = .error .valueError →
      dictGetD d durK = .str naV → dictGetD d tagDurK = .str naV →
      duration_seconds d = .ok 0) ∧
    (ffstreamInit [ls "codec_type=video", ls "duration=N/A", ls "TAG:DURATION=N/A"] =
        .ok demoNA ∧
      is_video demoNA = true ∧ duration_seconds demoNA = .ok 0) := by
  refine ⟨?_, ?_, ?_, ?_, by decide⟩
  · intro d hk
    unfold duration_seconds
    rw [hk]
    simp
  · intro d q hk hf
    unfold duration_seconds
    rw [hk, hf]
    simp
  · intro d h m s us hk hf hs
    unfold duration_seconds
    rw [hk, hf, hs]
    simp
  · intro d hk hf hs hd ht
    unfold duration_seconds
    rw [hk, hf, hs]
    simp [hd, ht]

/-- Witness for C8 at concrete records: a record with no `codec_type` returns
0.0, and an audio record with only a parsable `TAG:DURATION` takes the
`strptime` fallback. -/
theorem C8_duration_seconds_witness :
    duration_seconds [] = .ok 0 ∧
      duration_seconds demoTime =
        .ok ((((3 : Nat)) : ℚ) + (((2 : Nat)) : ℚ) * 60 + (((1 : Nat)) : ℚ) * 3600 +
          (((500000 : Nat)) : ℚ) / 1000000) :=
  ⟨C8_duration_seconds.1 [] (by decide),
   C8_duration_seconds.2.2.1 demoTime 1 2 3 500000 (by decide) (by decide) (by decide)⟩

/-! ### Claim C2 -/

/-- C2: the framerate is computed eagerly at construction from
`avg_frame_rate`.  Conjunct 1: in every successfully constructed nonempty
record the stored `framerate` is exactly the value the framerate computation
yields on the final dictionary (so it always reflects the final
`avg_frame_rate`).  Conjuncts 2-6 evaluate the spec's examples (`30/1` → 30,
`0/1` → 0, zero denominator → 0, non-numeric → `None`, key absent → `None`)
through the real constructor.  Conjunct 7: for any digit-string numerator and
nonzero digit-string denominator, the stored framerate is the rounded
rational quotient. -/
theorem C2_framerate :
    (∀ lines : List (List Char), ∀ d : Dict, ffstreamInit lines = .ok d → lines ≠ [] →
      dictGet d frK = (framerateVal d).toOption) ∧
    ffstreamInit [ls "avg_frame_rate=30/1"] =
      .ok [(avgK, .str (ls "30/1")), (frK, .int 30)] ∧
    ffstreamInit [ls "avg_frame_rate=0/1"] =
      .ok [(avgK, .str (ls "0/1")), (frK, .int 0)] ∧
    ffstreamInit [ls "avg_frame_rate=30/0"] =
      .ok [(avgK, .str (ls "30/0")), (frK, .int 0)] ∧
    ffstreamInit [ls "avg_frame_rate=abc/1"] =
      .ok [(avgK, .str (ls "abc/1")), (frK, .pnone)] ∧
    ffstreamInit [ls "a=b"] = .ok [(ls "a", .str (ls "b")), (frK, .pnone)] ∧
    (∀ a b : List Char, (∀ c ∈ a, c.isDigit = true) → (∀ c ∈ b, c.isDigit = true) →
      a ≠ [] → b ≠ [] → (natOfDigits b : Int) ≠ 0 →
      ffstreamInit [ls "avg_frame_rate=" ++ a ++ '/' :: b] =
          .ok (ffDictTotal [ls "avg_frame_rate=" ++ a ++ '/' :: b]) ∧
        dictGet (ffDictTotal [ls "avg_frame_rate=" ++ a ++ '/' :: b]) frK =
          some (.int (pyRound ((natOfDigits a : ℚ) / (natOfDigits b : ℚ))))) := by
  refine ⟨?_, by decide, by decide, by decide, by decide, by decide, ?_⟩
  · intro lines d hinit hne
    rcases List.eq_nil_or_concat lines with rfl | ⟨init, last, hcat⟩
    · exact absurd rfl hne
    · rw [List.concat_eq_append] at hcat
      subst hcat
      unfold ffstreamInit at hinit
      obtain ⟨mid, h1, h2⟩ := runLines_append_inv hinit
      cases hs : streamStep mid last with
      | error e => rw [runLines_cons_err [] hs] at h2; cases h2
      | ok s' =>
          rw [runLines_cons_ok [] hs, runLines_nil] at h2
          injection h2 with h2'
          subst h2'
          unfold streamStep at hs
          cases hsp : splitCh '=' (pyStrip last) with
          | nil => exact absurd hsp (splitCh_ne_nil _ _)
          | cons k rest =>
              cases rest with
              | nil => rw [hsp] at hs; cases hs
              | cons v t =>
                  rw [hsp] at hs
                  have hs3 : (match framerateVal (dictSet mid k (PyVal.str v)) with
                      | Except.ok fv =>
                          Except.ok (dictSet (dictSet mid k (PyVal.str v)) frK fv)
                      | Except.error e => Except.error e) = Except.ok s' := hs
                  cases hfv : framerateVal (dictSet mid k (.str v)) with
                  | error e => rw [hfv] at hs3; simp at hs3
                  | ok fv =>
                      rw [hfv] at hs3
                      simp only [Except.ok.injEq] at hs3
                      subst hs3
                      rw [dictGet_dictSet_self,
                        framerateVal_congr
                          (dictGet_dictSet_ne (dictSet mid k (.str v)) fv (by decide)),
                        hfv]
                      rfl
  · intro a b ha hb hnea hneb hden
    have hEq : ls "avg_frame_rate=" ++ a ++ '/' :: b
        = ls "avg_frame_rate" ++ '=' :: (a ++ '/' :: b) := by
      have h1 : ls "avg_frame_rate=" = ls "avg_frame_rate" ++ ['='] := by decide
      simp [h1]
    have hnospace : ∀ c ∈ ls "avg_frame_rate" ++ '=' :: (a ++ '/' :: b),
        isPySpace c = false := by
      intro c hc
      rcases List.mem_append.mp hc with h1 | h1
      · exact (by decide : ∀ c ∈ ls "avg_frame_rate", isPySpace c = false) c h1
      · rcases List.mem_cons.mp h1 with rfl | h2
        · decide
        · rcases List.mem_append.mp h2 with h3 | h3
          · exact isPySpace_eq_false_of_isDigit (ha c h3)
          · rcases List.mem_cons.mp h3 with rfl | h4
            · decide
            · exact isPySpace_eq_false_of_isDigit (hb c h4)
    have hstrip : pyStrip (ls "avg_frame_rate=" ++ a ++ '/' :: b)
        = ls "avg_frame_rate" ++ '=' :: (a ++ '/' :: b) := by
      rw [hEq]
      exact pyStrip_eq_self hnospace
    have hnomem : '=' ∉ a ++ '/' :: b := by
      intro hm
      rcases List.mem_append.mp hm with h1 | h1
      · exact absurd (ha _ h1) (by decide)
      · rcases List.mem_cons.mp h1 with he | h2
        · exact absurd he (by decide)
        · exact absurd (hb _ h2) (by decide)
    have hsplit : splitCh '=' (pyStrip (ls "avg_frame_rate=" ++ a ++ '/' :: b))
        = [ls "avg_frame_rate", a ++ '/' :: b] := by
      rw [hstrip, splitCh_append _ (by decide), splitCh_of_not_mem hnomem]
    have hmemEq : '=' ∈ pyStrip (ls "avg_frame_rate=" ++ a ++ '/' :: b) := by
      rw [hstrip]
      simp
    have hwf : ∀ l ∈ [ls "avg_frame_rate=" ++ a ++ '/' :: b], '=' ∈ pyStrip l := by
      intro l hl
      rw [List.mem_singleton] at hl
      subst hl
      exact hmemEq
    refine ⟨ffstreamInit_ok hwf, ?_⟩
    have hffd : ffDictTotal [ls "avg_frame_rate=" ++ a ++ '/' :: b]
        = dictSet (dictSet [] avgK (.str (a ++ '/' :: b))) frK
            (frTotal (dictSet [] avgK (.str (a ++ '/' :: b)))) := by
      unfold ffDictTotal
      rw [List.foldl_cons, List.foldl_nil]
      unfold stepTotal
      rw [hsplit]
      simp [avgK]
    rw [hffd, dictGet_dictSet_self]
    have hget : dictGet (dictSet ([] : Dict) avgK (.str (a ++ '/' :: b))) avgK
        = some (.str (a ++ '/' :: b)) := dictGet_dictSet_self _ _ _
    unfold frTotal dictGetD
    rw [hget]
    simp only [Option.getD_some]
    unfold frOfStr
    have hsplit2 : splitCh '/' (a ++ '/' :: b) = [a, b] := by
      rw [splitCh_append _ (not_mem_of_digits ha (by decide)),
        splitCh_of_not_mem (not_mem_of_digits hb (by decide))]
    rw [hsplit2]
    have hpos : (0 : Int) < (natOfDigits b : Int) :=
      lt_of_le_of_ne (Int.natCast_nonneg _) (Ne.symm hden)
    have hdivInt : (PyFrac.ofInt (natOfDigits a : Int)).divInt (natOfDigits b : Int)
        = ⟨(natOfDigits a : Int), (natOfDigits b : Int)⟩ := by
      unfold PyFrac.ofInt PyFrac.divInt
      rw [if_neg (not_lt.mpr (le_of_lt hpos)), one_mul]
    simp only [pyIntOpt_digits ha hnea, pyIntOpt_digits hb hneb, reduceDivGo, hden,
      ite_false, if_false]
    rw [hdivInt, pyRoundF_eq hpos,
      show ((natOfDigits a : Int) : ℚ) = (natOfDigits a : ℚ) from by push_cast; ring,
      show ((natOfDigits b : Int) : ℚ) = (natOfDigits b : ℚ) from by push_cast; ring]

/-- Witness for C2 at concrete records: the invariant conjunct on the record
built from `avg_frame_rate=30/1`, and the general numerator/denominator
conjunct at `12/8`. -/
theorem C2_framerate_witness :
    dictGet [(avgK, PyVal.str (ls "30/1")), (frK, PyVal.int 30)] frK =
      (framerateVal [(avgK, PyVal.str (ls "30/1")), (frK, PyVal.int 30)]).toOption ∧
    (ffstreamInit [ls "avg_frame_rate=" ++ ls "12" ++ '/' :: ls "8"] =
        .ok (ffDictTotal [ls "avg_frame_rate=" ++ ls "12" ++ '/' :: ls "8"]) ∧
      dictGet (ffDictTotal [ls "avg_frame_rate=" ++ ls "12" ++ '/' :: ls "8"]) frK =
        some (.int (pyRound ((natOfDigits (ls "12") : ℚ) / (natOfDigits (ls "8") : ℚ))))) :=
  ⟨C2_framerate.1 [ls "avg_frame_rate=30/1"]
      [(avgK, PyVal.str (ls "30/1")), (frK, PyVal.int 30)] (by decide) (by decide),
   C2_framerate.2.2.2.2.2.2 (ls "12") (ls "8") (by decide) (by decide) (by decide)
      (by decide) (by decide)⟩

theorem countD_eq_zero {a : Dict} {l : List Dict} (h : a ∉ l) : countD a l = 0 := by
  induction l with
  | nil => rfl
  | cons x t ih =>
      have hx : x ≠ a := fun e => h (e ▸ List.mem_cons_self x t)
      unfold countD
      rw [if_neg hx, ih (fun hm => h (List.mem_cons_of_mem _ hm))]

theorem countD_eq_one {l : List Dict} {a : Dict} (hnd : l.Nodup) (h : a ∈ l) :
    countD a l = 1 := by
  induction l with
  | nil => cases h
  | cons x t ih =>
      rcases List.mem_cons.mp h with rfl | hmem
      · unfold countD
        rw [if_pos rfl, countD_eq_zero (List.nodup_cons.mp hnd).1]
      · have hx : x ≠ a := fun e => (List.nodup_cons.mp hnd).1 (e ▸ hmem)
        unfold countD
        rw [if_neg hx, ih (List.nodup_cons.mp hnd).2 hmem]

/-! ### Claim C1 -/

/-- C1: on any input made of well-formed `[STREAM]`…`[/STREAM]` blocks
separated by junk lines, the stdout stream-block parse produces exactly one
record per block, appended to the stream list in block order, with the
record of each block being the successful `FFStream` construction of its body
lines; junk lines contribute nothing and the parse ends outside any block. -/
theorem C1_stream_blocks (j0 : List (List Char)) (segs : List (Blk × List (List Char)))
    (hj : wfJunk j0) (hsg : wfSegs segs) :
    (parseStdout (j0 ++ flattenSegs segs)).map OutState.streams =
        .ok (segs.map (fun p => ffDictTotal p.1.body)) ∧
      (parseStdout (j0 ++ flattenSegs segs)).map OutState.stream = .ok false ∧
      ∀ p ∈ segs, ffstreamInit p.1.body = .ok (ffDictTotal p.1.body) := by
  have hjunk := stdout_junk hj ⟨false, [], []⟩ rfl
  obtain ⟨dl, hrun⟩ := stdout_segs hsg ⟨false, [], []⟩ rfl
  rw [List.nil_append] at hrun
  have hfull : parseStdout (j0 ++ flattenSegs segs) =
      .ok ⟨false, dl, segs.map (fun p => ffDictTotal p.1.body)⟩ := by
    unfold parseStdout
    rw [runLines_append_ok hjunk, hrun]
  refine ⟨by rw [hfull]; rfl, by rw [hfull]; rfl, ?_⟩
  intro p hp
  exact ffstreamInit_ok (fun l hl => ((hsg p hp).1.2.1 l hl).2.2)

/-- Witness for C1 at a concrete one-block input with junk before and after. -/
theorem C1_stream_blocks_witness :
    (parseStdout ([ls "junk"] ++ flattenSegs demoSegs)).map OutState.streams =
      .ok (demoSegs.map (fun p => ffDictTotal p.1.body)) :=
  (C1_stream_blocks [ls "junk"] demoSegs (by decide) (by decide)).1

/-! ### Claim C3 -/

/-- C3: in every successfully built `ProbeResult` the four kind lists are the
`codec_type` filters of the full stream list: membership in a kind list is
equivalent to membership in the full list with the matching `codec_type`
literal; a record is in at most one kind list; records with an absent or
other `codec_type` are in none; and (records being distinct, as the Python
object identities are) every record of a kind list occurs in the full list
exactly once. -/
theorem C3_partition (outL errL : List (List Char)) (pr : ProbeResult)
    (h : probeCore outL errL = .ok pr) :
    (pr.video = pr.streams.filter is_video ∧ pr.audio = pr.streams.filter is_audio ∧
      pr.subtitle = pr.streams.filter is_subtitle ∧
      pr.attachment = pr.streams.filter is_attachment) ∧
    (∀ r : Dict,
      (r ∈ pr.video ↔ r ∈ pr.streams ∧ dictGet r ctK = some (.str (ls "video"))) ∧
      (r ∈ pr.audio ↔ r ∈ pr.streams ∧ dictGet r ctK = some (.str (ls "audio"))) ∧
      (r ∈ pr.subtitle ↔ r ∈ pr.streams ∧ dictGet r ctK = some (.str (ls "subtitle"))) ∧
      (r ∈ pr.attachment ↔ r ∈ pr.streams ∧ dictGet r ctK = some (.str (ls "attachment")))) ∧
    (∀ r : Dict, r ∈ pr.video → r ∉ pr.audio ∧ r ∉ pr.subtitle ∧ r ∉ pr.attachment) ∧
    (∀ r : Dict, r ∈ pr.audio → r ∉ pr.video ∧ r ∉ pr.subtitle ∧ r ∉ pr.attachment) ∧
    (∀ r : Dict, r ∈ pr.subtitle → r ∉ pr.video ∧ r ∉ pr.audio ∧ r ∉ pr.attachment) ∧
    (∀ r : Dict, r ∈ pr.attachment → r ∉ pr.video ∧ r ∉ pr.audio ∧ r ∉ pr.subtitle) ∧
    (∀ r : Dict, dictGet r ctK ∉ [some (PyVal.str (ls "video")),
        some (PyVal.str (ls "audio")), some (PyVal.str (ls "subtitle")),
        some (PyVal.str (ls "attachment"))] →
      r ∉ pr.video ∧ r ∉ pr.audio ∧ r ∉ pr.subtitle ∧ r ∉ pr.attachment) ∧
    (pr.streams.Nodup → ∀ r : Dict,
      r ∈ pr.video ∨ r ∈ pr.audio ∨ r ∈ pr.subtitle ∨ r ∈ pr.attachment →
      countD r pr.streams = 1) := by
  unfold probeCore at h
  cases ho : parseStdout outL with
  | error e => rw [ho] at h; cases h
  | ok o =>
      rw [ho] at h
      have h2 : (match runLines stderrStep
          ⟨false, false, [], o.stream, o.dataLines, o.streams⟩ errL with
        | Except.error e => (Except.error e : Except PyErr ProbeResult)
        | Except.ok est => Except.ok (mkResult est.streams est.md)) = Except.ok pr := h
      cases he : runLines stderrStep
          ⟨false, false, [], o.stream, o.dataLines, o.streams⟩ errL with
      | error e => rw [he] at h2; simp at h2
      | ok est =>
          rw [he] at h2
          simp only [Except.ok.injEq] at h2
          subst h2
          obtain ⟨m1, m2, m3, m4, m5, m6⟩ := mkResult_spec est.streams est.md
          rw [m1, m3, m4, m5, m6]
          refine ⟨⟨rfl, rfl, rfl, rfl⟩, ?_, ?_, ?_, ?_, ?_, ?_, ?_⟩
          · intro r
            refine ⟨?_, ?_, ?_, ?_⟩ <;>
              simp [List.mem_filter, is_video, is_audio, is_subtitle, is_attachment]
          · intro r hr
            have hct : is_video r = true := (List.mem_filter.mp hr).2
            refine ⟨fun hm => ?_, fun hm => ?_, fun hm => ?_⟩ <;>
              [(have h3 : is_audio r = false := ct_excl hct (by decide));
               (have h3 : is_subtitle r = false := ct_excl hct (by decide));
               (have h3 : is_attachment r = false := ct_excl hct (by decide))] <;>
              (have h2 := (List.mem_filter.mp hm).2; rw [h3] at h2; cases h2)
          · intro r hr
            have hct : is_audio r = true := (List.mem_filter.mp hr).2
            refine ⟨fun hm => ?_, fun hm => ?_, fun hm => ?_⟩ <;>
              [(have h3 : is_video r = false := ct_excl hct (by decide));
               (have h3 : is_subtitle r = false := ct_excl hct (by decide));
               (have h3 : is_attachment r = false := ct_excl hct (by decide))] <;>
              (have h2 := (List.mem_filter.mp hm).2; rw [h3] at h2; cases h2)
          · intro r hr
            have hct : is_subtitle r = true := (List.mem_filter.mp hr).2
            refine ⟨fun hm => ?_, fun hm => ?_, fun hm => ?_⟩ <;>
              [(have h3 : is_video r = false := ct_excl hct (by decide));
               (have h3 : is_audio r = false := ct_excl hct (by decide));
               (have h3 : is_attachment r = false := ct_excl hct (by decide))] <;>
              (have h2 := (List.mem_filter.mp hm).2; rw [h3] at h2; cases h2)
          · intro r hr
            have hct : is_attachment r = true := (List.mem_filter.mp hr).2
            refine ⟨fun hm => ?_, fun hm => ?_, fun hm => ?_⟩ <;>
              [(have h3 : is_video r = false := ct_excl hct (by decide));
               (have h3 : is_audio r = false := ct_excl hct (by decide));
               (have h3 : is_subtitle r = false := ct_excl hct (by decide))] <;>
              (have h2 := (List.mem_filter.mp hm).2; rw [h3] at h2; cases h2)
          · intro r hn
            simp only [List.mem_cons, List.not_mem_nil, or_false, not_or] at hn
            obtain ⟨n1, n2, n3, n4⟩ := hn
            exact ⟨fun hm => n1 (of_decide_eq_true (List.mem_filter.mp hm).2),
              fun hm => n2 (of_decide_eq_true (List.mem_filter.mp hm).2),
              fun hm => n3 (of_decide_eq_true (List.mem_filter.mp hm).2),
              fun hm => n4 (of_decide_eq_true (List.mem_filter.mp hm).2)⟩
          · intro hnd r hmem
            have hr : r ∈ est.streams := by
              rcases hmem with hm | hm | hm | hm <;> exact (List.mem_filter.mp hm).1
            exact countD_eq_one hnd hr

/-- Witness for C3 on the probe of a one-video-stream stdout dump. -/
theorem C3_partition_witness :
    demoVid ∈ demoPrC3.video ↔ demoVid ∈ demoPrC3.streams ∧
      dictGet demoVid ctK = some (.str (ls "video")) :=
  ((C3_partition [ls "[STREAM]", ls "codec_type=video", ls "[/STREAM]"] [] demoPrC3
    (by decide)).2.1 demoVid).1

/-! ### Claim C6 -/

/-- C6: counterexample — Input B is not metadata-only: the stderr loop also
runs the stream-block extraction, so a `[STREAM]`…`[/STREAM]` block appearing
on stderr contributes a StreamRecord to the full stream list (here the probe
of an empty stdout and a one-block stderr yields one parsed stream). -/
theorem C6_counterexample :
    (probeCore [] [ls "Stream #0", ls "[STREAM]", ls "a=b", ls "[/STREAM]"]).map
      ProbeResult.streams = .ok [demoAB] := by decide

/-- C6 (amended): processing Input B updates the metadata mapping and, in
addition, runs the same stream-block state machine: after the metadata
section has closed, well-formed blocks in Input B each append one
StreamRecord to the full stream list, while the metadata mapping stays
unchanged. -/
theorem C6_stderr_blocks (st : ErrState) (segs : List (Blk × List (List Char)))
    (hm : st.met = true) (hi : st.isMeta = false) (hst : st.stream = false)
    (hsg : wfSegs segs) :
    (runLines stderrStep st (flattenSegs segs)).map ErrState.md = .ok st.md ∧
      (runLines stderrStep st (flattenSegs segs)).map ErrState.met = .ok true ∧
      (runLines stderrStep st (flattenSegs segs)).map ErrState.streams =
        .ok (st.streams ++ segs.map (fun p => ffDictTotal p.1.body)) := by
  obtain ⟨dl, hrun⟩ := stdout_segs hsg ⟨st.stream, st.dataLines, st.streams⟩ hst
  have hsim := runLines_sim (flattenSegs segs) st hm hi
  rw [hsim, hrun]
  exact ⟨rfl, rfl, rfl⟩

/-- Witness for the amended C6 statement at a concrete closed-metadata state
and one stderr block. -/
theorem C6_stderr_blocks_witness :
    (runLines stderrStep demoErrSt (flattenSegs demoSegs)).map ErrState.md =
        .ok demoErrSt.md ∧
      (runLines stderrStep demoErrSt (flattenSegs demoSegs)).map ErrState.met = .ok true ∧
      (runLines stderrStep demoErrSt (flattenSegs demoSegs)).map ErrState.streams =
        .ok (demoErrSt.streams ++ demoSegs.map (fun p => ffDictTotal p.1.body)) :=
  C6_stderr_blocks demoErrSt demoSegs (by decide) (by decide) (by decide) (by decide)

/-! ### Claim C7 -/

/-- C7: counterexample — a line containing `Stream #` seen while in the
metadata section does not always end it: when the line also contains
`Metadata:` (and no stream marker was seen yet) the first branch wins, the
section stays open, and a later `title : x` line still adds a key/value
pair to the metadata mapping. -/
theorem C7_counterexample :
    runLines stderrStep ⟨false, false, [], false, [], []⟩ [ls "Metadata:"] =
        .ok ⟨true, false, [], false, [], []⟩ ∧
      hasSub sSTREAMH (ls "Stream #0 Metadata:") = true ∧
      runLines stderrStep ⟨false, false, [], false, [], []⟩
          [ls "Metadata:", ls "Stream #0 Metadata:"] =
        .ok ⟨true, false, [], false, [], []⟩ ∧
      runLines stderrStep ⟨false, false, [], false, [], []⟩
          [ls "Metadata:", ls "Stream #0 Metadata:", ls " title : x"] =
        .ok ⟨true, false, [(ls "title", ls "x")], false, [], []⟩ := by decide

/-- C7 (amended): a line containing `Stream #` but not `Metadata:` always
sets `stream_metadata_met`; and once that flag is set the parse is
permanently done with metadata: for any remaining line sequence the mapping
never changes and the flag stays set, even if later lines contain
`Metadata:`. -/
theorem C7_metadata_done :
    (∀ st : ErrState, ∀ line : List Char, ∀ r : ErrState,
      hasSub sSTREAMH line = true → hasSub sMETA line = false →
      stderrStep st line = .ok r → r.met = true) ∧
    (∀ st : ErrState, ∀ lines : List (List Char), ∀ r : ErrState,
      st.met = true → st.isMeta = false →
      runLines stderrStep st lines = .ok r → r.md = st.md ∧ r.met = true) := by
  constructor
  · intro st line r hS hM hok
    obtain ⟨im, mt, md, s, dl, ss⟩ := st
    have hstep : stderrStep ⟨im, mt, md, s, dl, ss⟩ line
        = stderrStep ⟨false, true, md, s, dl, ss⟩ line := by
      unfold stderrStep
      rw [hM, hS]
      simp
    rw [hstep, stderrStep_sim ⟨false, true, md, s, dl, ss⟩ line rfl rfl] at hok
    cases ho : stdoutStep ⟨s, dl, ss⟩ line with
    | error e =>
        rw [ho] at hok
        have hok2 : (Except.error e : Except PyErr ErrState) = .ok r := hok
        cases hok2
    | ok o =>
        rw [ho] at hok
        have hok2 : Except.ok
            (⟨false, true, md, o.stream, o.dataLines, o.streams⟩ : ErrState) = .ok r := hok
        injection hok2 with h'
        rw [← h']
  · intro st lines r hm hi hok
    rw [runLines_sim lines st hm hi] at hok
    cases ho : runLines stdoutStep ⟨st.stream, st.dataLines, st.streams⟩ lines with
    | error e =>
        rw [ho] at hok
        have hok2 : (Except.error e : Except PyErr ErrState) = .ok r := hok
        cases hok2
    | ok o =>
        rw [ho] at hok
        have hok2 : Except.ok
            (⟨false, true, st.md, o.stream, o.dataLines, o.streams⟩ : ErrState) = .ok r := hok
        injection hok2 with h'
        rw [← h']
        exact ⟨rfl, rfl⟩

/-- Witness for the amended C7 statement at concrete states and lines. -/
theorem C7_metadata_done_witness :
    (⟨false, true, ([] : MDict), false, [], []⟩ : ErrState).met = true ∧
      (demoErrSt.md = demoErrSt.md ∧ demoErrSt.met = true) :=
  ⟨C7_metadata_done.1 ⟨true, false, [], false, [], []⟩ (ls "Stream #0")
      ⟨false, true, [], false, [], []⟩ (by decide) (by decide) (by decide),
   C7_metadata_done.2 demoErrSt [ls "x"] demoErrSt (by decide) (by decide) (by decide)⟩
